import Mathlib

/-!
Shallow embedding of the selector-synthesis program in `src/main.py` (a Python
port of the finder library over lxml documents), together with proofs about the
claims of the specification.

Modelling conventions, chosen to mirror the source faithfully:

* A document is the inductive tree `XNode`; comment nodes are explicit.
  Node identity (lxml compares elements by object identity) is modelled by the
  position of a node in the tree: a `Pos` is the list of child indices from the
  root (counting every child, comments included, exactly as lxml iteration
  does).
* A candidate (`Knot`, the dict with keys name / penalty / level in the
  source) carries, besides the rendered `name` string, a structured
  description `desc` of the same selector fragment.  The `desc` field holds
  exactly the information that the generators render into `name`; it is what
  the modelled external CSS engine consumes, standing for the parse of the
  rendered text.
* Penalties are stored in doubled integer units so that they live in `Nat`:
  the source values 0, 0.5, 1, 2, 3 (and the +1 positional surcharge) become
  0, 1, 2, 4, 6 (and +2).  Doubling is an order isomorphism on sums of
  penalties, so every comparison and every sort performed by the program is
  unchanged.
* The `sorted(paths, key=penalty)` call of the source is a stable sort by
  penalty; `List.insertionSort` with the penalty order is such a stable sort
  and therefore produces the same list.
* Code that raises (`unique` on an empty query result, `finder` when no mode
  succeeds) returns `Except String`.
* The external query collaborator `root_document.cssselect(selector(path))` is
  modelled by `cssQuery`, which interprets the rendered selector text of a
  path with the standard CSS semantics implemented by lxml/cssselect:
  elements are enumerated in document order starting at the root
  (descendant-or-self), `:nth-child(n)` counts element siblings only, and the
  combinators of the rendered string are recovered from the stored levels in
  exactly the way the renderer `selector` chooses them.
* Functions that consult the uniqueness oracle also return the list of
  selector texts they queried, in order, so that claims about queries being
  issued or skipped can be stated.
-/

namespace Finder

/-- Document tree node: an element with a tag, an ordered attribute list and an
ordered child list, or a comment node. -/
inductive XNode where
  | elem (tag : String) (attrs : List (String × String)) (children : List XNode)
  | comment (text : String)

/-- Identity of a node inside a fixed document: the list of child indices from
the root, counting all children (comments included), as lxml iteration does. -/
abbrev Pos := List Nat

/-- Structured form of one selector fragment, mirroring exactly what the
generators render into a knot name: a base selector plus an optional
nth-child ordinal. -/
inductive BaseSel where
  | byId (s : String)
  | byClass (s : String)
  | byTag (s : String)
  | byAttr (key value : String)
  | star
deriving DecidableEq

structure SelDesc where
  base : BaseSel
  nth : Option Nat
deriving DecidableEq

/-- The candidate dictionary of the source (keys name, penalty, level), plus
the structured description of the rendered fragment. Penalties are in doubled
units (see the header comment). -/
structure Knot where
  name : String
  penalty : Nat
  level : Nat
  desc : SelDesc
deriving DecidableEq

abbrev Path := List Knot

/-- The configuration record built by `finder` from defaults and options.  The
query root is the document passed around explicitly (the source stores it in
the module-level `root_document`). -/
structure Config where
  id_name : String → Bool
  class_name : String → Bool
  tag_name_pred : String → Bool
  attr_pred : String → String → Bool
  seed_min_length : Nat
  optimized_min_length : Nat
  threshold : Nat
  max_number_of_tries : Nat

/-- Default options of `finder` (the `defaults` dict in the source). -/
def defaults : Config :=
  { id_name := fun _ => true
    class_name := fun _ => true
    tag_name_pred := fun _ => true
    attr_pred := fun _ _ => false
    seed_min_length := 1
    optimized_min_length := 2
    threshold := 1000
    max_number_of_tries := 10000 }

/-- The mutable dict threaded through `optimize` (keys counter and visited;
the visited dict is used only for membership, so a list of keys models it). -/
structure Scope where
  counter : Nat
  visited : List String
deriving DecidableEq

/-! ## Tree navigation (the external lxml collaborator) -/

def isComment : XNode → Bool
  | .comment _ => true
  | .elem _ _ _ => false

def attrsOf : XNode → List (String × String)
  | .elem _ a _ => a
  | .comment _ => []

def childrenOf : XNode → List XNode
  | .elem _ _ cs => cs
  | .comment _ => []

/-- Node of the document at a position, if the position is valid. -/
def getNodeAt : XNode → Pos → Option XNode
  | n, [] => some n
  | .elem _ _ cs, i :: rest =>
    match cs[i]? with
    | some c => getNodeAt c rest
    | none => none
  | .comment _, _ :: _ => none

/-- Tag of the node at a position (empty string for comments or invalid
positions; `finder` only reads the tag of element nodes). -/
def tagAt (doc : XNode) (pos : Pos) : String :=
  match getNodeAt doc pos with
  | some (.elem t _ _) => t
  | _ => ""

/-! ## Escaper (`css_escape`) -/

/-- Uppercase hexadecimal digit for a value below 16, as produced by the
percent-04X format of the source (uppercase hexadecimal, zero padded to a
minimum of four digits). -/
def hexDigitChar (n : Nat) : Char :=
  if n < 10 then Char.ofNat (48 + n) else Char.ofNat (55 + n)

/-- Most-significant-first hexadecimal digits of `n`; the first argument is
recursion fuel, always instantiated with `n` itself (the digit recursion on
`n / 16` terminates well before the fuel runs out). -/
def hexDigitsAux : Nat → Nat → List Char
  | 0, _ => []
  | fuel + 1, n =>
    if n = 0 then [] else hexDigitsAux fuel (n / 16) ++ [hexDigitChar (n % 16)]

/-- Rendering of the percent-04X format: uppercase hexadecimal, zero-padded
on the left to at least four digits. -/
def hexPad4 (n : Nat) : String :=
  let ds := if n = 0 then ['0'] else hexDigitsAux n n
  String.mk (List.replicate (4 - ds.length) '0' ++ ds)

/-- Character-list form of the loop body of `css_escape`: printable ASCII
(0x20 to 0x7E) passes through, anything else becomes a backslash, the
code point in the 4-digit-minimum uppercase hexadecimal form, and a space. -/
def escList : List Char → List Char
  | [] => []
  | c :: rest =>
    (if 0x20 ≤ c.toNat ∧ c.toNat ≤ 0x7E then [c]
     else '\\' :: (hexPad4 c.toNat).data ++ [' ']) ++ escList rest

/-- The `css_escape` function of the source.  The `is_identifier` flag is
accepted (callers pass it) but, exactly as in the source body, never used. -/
def css_escape (string : String) (is_identifier : Bool) : String :=
  String.mk (escList string.data)

/-! ## Candidate generators -/

/-- Python `str.split()` whitespace test, for the characters that occur in
class attributes. -/
def isWsChar (c : Char) : Bool :=
  c = ' ' ∨ c = '\t' ∨ c = '\n' ∨ c = '\r'

/-- Python `str.split()` with no separator: split on whitespace runs and drop
empty tokens. -/
def splitWsAux : List Char → List Char → List String
  | [], acc => if acc.isEmpty then [] else [String.mk acc.reverse]
  | c :: rest, acc =>
    if isWsChar c then
      (if acc.isEmpty then [] else [String.mk acc.reverse]) ++ splitWsAux rest []
    else splitWsAux rest (c :: acc)

def splitWs (s : String) : List String :=
  splitWsAux s.data []

/-- The `id` generator: a knot iff the node has a non-empty `id` attribute
(Python truthiness of the string) accepted by the `id_name` predicate. -/
def id (cfg : Config) (input : XNode) : Option Knot :=
  match (attrsOf input).lookup "id" with
  | some element_id =>
    if element_id ≠ "" ∧ cfg.id_name element_id then
      some { name := "#" ++ css_escape element_id true
             penalty := 0
             level := 0
             desc := ⟨.byId element_id, none⟩ }
    else none
  | none => none

/-- The `attr` generator: one knot per attribute pair accepted by the
predicate, in attribute order. -/
def attr (cfg : Config) (input : XNode) : List Knot :=
  ((attrsOf input).filter (fun a => cfg.attr_pred a.1 a.2)).map (fun a =>
    { name := "[" ++ css_escape a.1 true ++ "=\"" ++ css_escape a.2 false ++ "\"]"
      penalty := 1
      level := 0
      desc := ⟨.byAttr a.1 a.2, none⟩ })

/-- The `class_names` generator: one knot per whitespace-separated class token
accepted by the predicate. -/
def class_names (cfg : Config) (input : XNode) : List Knot :=
  ((splitWs (((attrsOf input).lookup "class").getD "")).filter cfg.class_name).map
    (fun nm =>
      { name := "." ++ css_escape nm true
        penalty := 2
        level := 0
        desc := ⟨.byClass nm, none⟩ })

/-- The `tag_name` generator. -/
def tag_name (cfg : Config) (input : XNode) : Option Knot :=
  match input with
  | .elem t _ _ =>
    if cfg.tag_name_pred t then
      some { name := t, penalty := 4, level := 0, desc := ⟨.byTag t, none⟩ }
    else none
  | .comment _ => none

/-- The wildcard knot (`any()` in the source). -/
def any : Knot :=
  { name := "*", penalty := 6, level := 0, desc := ⟨.star, none⟩ }

/-- Loop body of `index`: walk the children with a counter, returning
`i + 1` at the child that is the input node (object identity in lxml;
positional identity here, with `target` the child index of the input). -/
def idxFind : List XNode → Nat → Nat → Option Nat
  | [], _, _ => none
  | _ :: rest, target, i =>
    if i = target then some (i + 1) else idxFind rest target (i + 1)

/-- The `index` function: 1-based position of the node among all children of
its parent, comments included; `none` at the root. -/
def index (doc : XNode) (pos : Pos) : Option Nat :=
  if pos.isEmpty then none
  else
    match getNodeAt doc pos.dropLast with
    | some (.elem _ _ cs) => idxFind cs ((pos.getLast?).getD 0) 0
    | _ => none

/-- The `nth_child` augmentation: append the positional qualifier to the
rendered text and add the surcharge (+1 in source units, +2 in doubled
units). -/
def nth_child (node : Knot) (i : Nat) : Knot :=
  { name := node.name ++ ":nth-child(" ++ toString i ++ ")"
    penalty := node.penalty + 2
    level := node.level
    desc := ⟨node.desc.base, some i⟩ }

/-- The `dispensable_nth` test of the source, on the rendered text: not the
literal `html` and not an id selector (the source uses `startswith("#")`,
which for the one-character prefix is the first-character test). -/
def dispensable_nth (node : Knot) : Bool :=
  node.name ≠ "html" ∧ node.name.data.head? ≠ some '#'

/-- The `maybe` helper: drop the `None` entries and return the list when it is
non-empty, `None` otherwise. -/
def maybe (level : List (Option Knot)) : Option (List Knot) :=
  let l := level.filterMap (fun x => x)
  if l.isEmpty then none else some l

/-- The or-chain that builds a level before the search-mode adjustment:
`maybe(id) or maybe(*attr) or maybe(*class_names) or maybe(tag_name) or
[any()]`. -/
def baseLevel (cfg : Config) (input : XNode) : List Knot :=
  ((maybe [id cfg input] <|> maybe ((attr cfg input).map some) <|>
      maybe ((class_names cfg input).map some) <|>
      maybe [tag_name cfg input]).getD [any])

/-- The per-mode adjustment of a level inside `bottom_up_search` (the limit
strings are those of the source).  The source indexes `level[0]` only when
the list is non-empty; the empty cases below are unreachable because levels
are never empty. -/
def applyLimit (limit : String) (level : List Knot) (nth : Option Nat) : List Knot :=
  if limit == "all" then
    match nth with
    | some n => level ++ (level.filter dispensable_nth).map (fun node => nth_child node n)
    | none => level
  else if limit == "two" then
    let l1 := level.take 1
    match nth, l1 with
    | some n, node :: _ => l1 ++ [nth_child node n]
    | _, _ => l1
  else if limit == "one" then
    let l1 := level.take 1
    match nth, l1 with
    | some n, node :: _ => if dispensable_nth node then [nth_child node n] else l1
    | _, _ => l1
  else if limit == "none" then
    match nth with
    | some n => [nth_child any n]
    | none => [any]
  else level

/-! ## Renderer (`selector`) and costs (`penalty`, `sort`) -/

/-- One step of the rendering loop: prepend the next (more root-ward) knot,
with a child combinator iff its stored level is one greater than the level of
the previously handled knot (the source compares over the integers:
`node["level"] == level - 1`). -/
def joinStep (query : String) (node k : Knot) : String :=
  if (node.level : Int) == (k.level : Int) - 1 then k.name ++ " > " ++ query
  else k.name ++ " " ++ query

def selGo (query : String) (node : Knot) : List Knot → String
  | [] => query
  | k :: rest => selGo (joinStep query node k) k rest

/-- The `selector` renderer.  The source indexes `path[0]`, so the empty case
is unreachable; it renders to the empty string here. -/
def selector : Path → String
  | [] => ""
  | k :: rest => selGo k.name k rest

/-- Total cost of a path (in doubled units). -/
def penalty (path : Path) : Nat :=
  (path.map Knot.penalty).sum

/-- The `sort` helper: `sorted(paths, key=penalty)` is a stable sort by
penalty, which `List.insertionSort` with this order reproduces exactly. -/
def sort (paths : List Path) : List Path :=
  List.insertionSort (fun a b => penalty a ≤ penalty b) paths

/-! ## The modelled external query engine -/

mutual
/-- All element positions of the document in document order, the root first
(queries run with a descendant-or-self axis, so the root itself is
a candidate match). Comment nodes are not elements and are skipped. -/
def allPositions : XNode → List Pos
  | .comment _ => []
  | .elem _ _ cs => [] :: allPositionsList cs 0
def allPositionsList : List XNode → Nat → List Pos
  | [], _ => []
  | c :: rest, i => (allPositions c).map (i :: ·) ++ allPositionsList rest (i + 1)
end

/-- Base-selector matching of one element node. -/
def nodeMatchesBase (n : XNode) : BaseSel → Bool
  | .byId s => (attrsOf n).lookup "id" == some s
  | .byClass s => (splitWs (((attrsOf n).lookup "class").getD "")).contains s
  | .byTag s =>
    match n with
    | .elem t _ _ => t == s
    | .comment _ => false
  | .byAttr k v => (attrsOf n).lookup k == some v
  | .star => !(isComment n)

/-- Number of element children in a list (comments do not count for CSS
`:nth-child`, which cssselect translates to a count of preceding element
siblings). -/
def countElems : List XNode → Nat
  | [] => 0
  | c :: rest => (if isComment c then 0 else 1) + countElems rest

/-- CSS `:nth-child(n)` at a position: the node is the n-th element child of
its parent, counting element siblings only. -/
def nthOk (doc : XNode) (pos : Pos) (n : Nat) : Bool :=
  match pos.getLast? with
  | none => false
  | some k =>
    match getNodeAt doc pos.dropLast with
    | some (.elem _ _ cs) => countElems (cs.take k) + 1 == n
    | _ => false

/-- Matching of one knot at a position: the node is an element matching the
base selector and, if present, the nth-child qualifier. -/
def matchesKnot (doc : XNode) (pos : Pos) (k : Knot) : Bool :=
  match getNodeAt doc pos with
  | some nd =>
    !(isComment nd) && nodeMatchesBase nd k.desc.base &&
      (match k.desc.nth with
       | some n => nthOk doc pos n
       | none => true)
  | none => false

/-- Combinator between two adjacent knots of a rendered path, recovered from
the stored levels exactly as the renderer chooses it. -/
def childComb (a b : Knot) : Bool :=
  (a.level : Int) == (b.level : Int) - 1

/-- Strict ancestor positions of a position (all proper prefixes). -/
def prefixesOf : Pos → List Pos
  | [] => []
  | x :: rest => [] :: (prefixesOf rest).map (x :: ·)

/-- Matching of a rendered path at a candidate position of its target-most
compound: each subsequent knot must match at the parent (child combinator) or
at some strict ancestor (descendant combinator). -/
def matchesChain (doc : XNode) : Knot → List Knot → Pos → Bool
  | k, [], pos => matchesKnot doc pos k
  | k, k2 :: rest, pos =>
    matchesKnot doc pos k &&
      (if childComb k k2 then
        match pos with
        | [] => false
        | _ :: _ => matchesChain doc k2 rest pos.dropLast
      else
        (prefixesOf pos).any (fun ap => matchesChain doc k2 rest ap))

/-- The modelled `root_document.cssselect(selector(path))`: all element
positions matching the rendered path, in document order. -/
def cssQuery (doc : XNode) (path : Path) : List Pos :=
  match path with
  | [] => []
  | k :: rest => (allPositions doc).filter (fun p => matchesChain doc k rest p)

/-! ## Uniqueness oracle (`unique`, `same`) -/

/-- The `unique` oracle: render, query, raise on zero matches, and otherwise
report whether exactly one node matched. -/
def unique (doc : XNode) (path : Path) : Except String Bool :=
  let css := selector path
  let elements := cssQuery doc path
  if elements.length = 0 then
    .error ("Cannot select any node with this selector: " ++ css)
  else .ok (elements.length == 1)

/-- The `same` check of the optimizer: the first query result is the original
input node.  The source indexes `[0]` and is only called after `unique`
succeeded, so the list is never empty there. -/
def same (doc : XNode) (path : Path) (input : Pos) : Bool :=
  (cssQuery doc path).head? == some input

/-! ## Combination enumerator and seed search -/

/-- The `combinations` expansion: cartesian product of the per-level lists,
one knot per level in level order, built onto the accumulator `path` exactly
as the recursive source function does. -/
def combinations (stack : List (List Knot)) (path : Path) : List Path :=
  match stack with
  | [] => [path]
  | level :: rest => level.flatMap (fun node => combinations rest (path ++ [node]))

/-- The testing loop of `find_unique_path`: try the candidate paths in the
given (sorted) order, returning the first unique one together with the list
of selector texts queried. -/
def findCandidate (doc : XNode) : List Path → Except String (Option Path × List String)
  | [] => .ok (none, [])
  | p :: rest =>
    match unique doc p with
    | .error e => .error e
    | .ok true => .ok (some p, [selector p])
    | .ok false =>
      match findCandidate doc rest with
      | .error e => .error e
      | .ok (r, lg) => .ok (r, selector p :: lg)

/-- The `find_unique_path` attempt: enumerate, sort by cost, give up without
querying when more paths than `threshold` were enumerated, and otherwise test
cheapest-first. -/
def find_unique_path (doc : XNode) (cfg : Config) (stack : List (List Knot)) :
    Except String (Option Path × List String) :=
  let paths := sort (combinations stack [])
  if paths.length > cfg.threshold then .ok (none, [])
  else findCandidate doc paths

/-- One iteration of the `bottom_up_search` while-loop at the node at `pos`,
parametrized by the continuation `cont` that either walks on to the parent or,
at the root, performs the final attempt of the source (the `if not path`
line). -/
def busStep (doc : XNode) (cfg : Config) (limit : String) (pos : Pos) (i : Nat)
    (stack : List (List Knot))
    (cont : Nat → List (List Knot) → Except String (Option Path × List String)) :
    Except String (Option Path × List String) :=
  match getNodeAt doc pos with
  | none => find_unique_path doc cfg stack
  | some node =>
    if isComment node then cont (i + 1) stack
    else
      let nth := index doc pos
      let level := (applyLimit limit (baseLevel cfg node) nth).map
        (fun k => { k with level := i })
      let stack2 := stack ++ [level]
      if cfg.seed_min_length ≤ stack2.length then
        match find_unique_path doc cfg stack2 with
        | .error e => .error e
        | .ok (some p, lg) => .ok (some p, lg)
        | .ok (none, lg) =>
          match cont (i + 1) stack2 with
          | .error e => .error e
          | .ok (r, lg2) => .ok (r, lg ++ lg2)
      else cont (i + 1) stack2

/-- The while-loop of `bottom_up_search`, walking the position from the target
to the root.  The loop variable is the reversed position (deepest child index
first), so stepping to the parent is the structural tail; the actual position
handed to the loop body is its reversal.  At the root the continuation is the
final `find_unique_path` attempt of the source. -/
def busGo (doc : XNode) (cfg : Config) (limit : String) :
    Pos → Nat → List (List Knot) → Except String (Option Path × List String)
  | [], i, stack =>
    busStep doc cfg limit [] i stack (fun _ stack2 => find_unique_path doc cfg stack2)
  | r :: rt, i, stack =>
    busStep doc cfg limit ((r :: rt).reverse) i stack
      (fun i2 stack2 => busGo doc cfg limit rt i2 stack2)

/-- The `bottom_up_search` traversal for one limit mode, also returning the
selector texts queried. -/
def bottom_up_search (doc : XNode) (cfg : Config) (input : Pos) (limit : String) :
    Except String (Option Path × List String) :=
  busGo doc cfg limit input.reverse 0 []

/-! ## Optimizer -/

/-- The for-loop of `optimize` over the remaining removal positions `is`,
with the recursive optimization of an accepted shorter path supplied as the
parameter `recurse`.  Returns the collected results, the final scope and the
selector texts queried at the uniqueness oracle (the identity re-check of
`same` reuses the result of the same query and is not a separate oracle
query). -/
def optLoopAux (doc : XNode) (cfg : Config) (input : Pos)
    (recurse : Path → Scope → Except String (List Path × Scope × List String))
    (path : Path) :
    List Nat → Scope → Except String (List Path × Scope × List String)
  | [], scope => .ok ([], scope, [])
  | i :: is, scope =>
    if scope.counter > cfg.max_number_of_tries then .ok ([], scope, [])
    else
      let scope1 : Scope := ⟨scope.counter + 1, scope.visited⟩
      let new_path := path.take i ++ path.drop (i + 1)
      let key := selector new_path
      if key ∈ scope1.visited then optLoopAux doc cfg input recurse path is scope1
      else
        match unique doc new_path with
        | .error e => .error e
        | .ok u =>
          if u && same doc new_path input then
            let scope2 : Scope := ⟨scope1.counter, key :: scope1.visited⟩
            match recurse new_path scope2 with
            | .error e => .error e
            | .ok (sub, scope3, lg) =>
              match optLoopAux doc cfg input recurse path is scope3 with
              | .error e => .error e
              | .ok (rest, scope4, lg2) =>
                .ok (new_path :: (sub ++ rest), scope4, key :: (lg ++ lg2))
          else
            match optLoopAux doc cfg input recurse path is scope1 with
            | .error e => .error e
            | .ok (rest, scope4, lg2) => .ok (rest, scope4, key :: lg2)

/-- The recursive body of `optimize`.  The first argument is structural
recursion fuel that is always the length of the path (the top-level call uses
`path.length`, and each nested call optimizes a path exactly one element
shorter); for fuel 0 the path is empty, and the result coincides with the
source (the length guard fails on an empty path). -/
def optAux (doc : XNode) (cfg : Config) (input : Pos) :
    Nat → Path → Scope → Except String (List Path × Scope × List String)
  | 0, _, scope => .ok ([], scope, [])
  | f + 1, path, scope =>
    if path.length > 2 ∧ path.length > cfg.optimized_min_length then
      optLoopAux doc cfg input (optAux doc cfg input f) path
        (List.range' 1 (path.length - 2)) scope
    else .ok ([], scope, [])

/-- The `optimize` function: try to remove each interior element of the path,
keeping removals that stay unique and still resolve to the input node, and
recurse on each accepted shorter path with the shared scope. -/
def optimize (doc : XNode) (cfg : Config) (path : Path) (input : Pos) (scope : Scope) :
    Except String (List Path × Scope × List String) :=
  optAux doc cfg input path.length path scope

/-! ## Top level (`finder`) -/

/-- The or-chain of the four search modes, in the order of the source; an
exception from an earlier mode propagates before a later mode runs. -/
def searchAllModes (doc : XNode) (cfg : Config) (input : Pos) :
    Except String (Option Path) :=
  match bottom_up_search doc cfg input "all" with
  | .error e => .error e
  | .ok (some p, _) => .ok (some p)
  | .ok (none, _) =>
    match bottom_up_search doc cfg input "two" with
    | .error e => .error e
    | .ok (some p, _) => .ok (some p)
    | .ok (none, _) =>
      match bottom_up_search doc cfg input "one" with
      | .error e => .error e
      | .ok (some p, _) => .ok (some p)
      | .ok (none, _) =>
        match bottom_up_search doc cfg input "none" with
        | .error e => .error e
        | .ok (r, _) => .ok r

/-- The `finder` entry point on a document, a configuration (the merge of the
defaults with the caller options) and the input node.  The query root is the
document itself, as with the default options of the source. -/
def finder (doc : XNode) (cfg : Config) (input : Pos) : Except String String :=
  if tagAt doc input == "html" then .ok "html"
  else
    match searchAllModes doc cfg input with
    | .error e => .error e
    | .ok none => .error "Selector was not found."
    | .ok (some path) =>
      match optimize doc cfg path input ⟨0, []⟩ with
      | .error e => .error e
      | .ok (results, _, _) =>
        match sort results with
        | best :: _ => .ok (selector best)
        | [] => .ok (selector path)

/-! ## Spec-side definitions for the refinement statements -/

/-- First non-empty group in precedence order, with a default; written after
the words of the specification on level building. -/
def firstNonEmpty : List (List Knot) → List Knot → List Knot
  | [], dflt => dflt
  | g :: gs, dflt => if g.isEmpty then firstNonEmpty gs dflt else g

/-- Level built for the exhaustive search mode, written after the corrected
specification words: the first non-empty generator group in precedence order
id, attributes, classes, tag — else the wildcard — plus, when a sibling
position exists, a position-augmented duplicate of every position-dispensable
candidate of the level. -/
def specLevelAll (cfg : Config) (node : XNode) (nth : Option Nat) : List Knot :=
  let base := firstNonEmpty
    [(id cfg node).toList, attr cfg node, class_names cfg node, (tag_name cfg node).toList]
    [any]
  match nth with
  | some n => base ++ (base.filter dispensable_nth).map (fun k => nth_child k n)
  | none => base

/-! ## Helpers for reading back the escaped hexadecimal form -/

/-- Value of one uppercase hexadecimal digit character. -/
def hexCharVal (c : Char) : Nat :=
  if 65 ≤ c.toNat then c.toNat - 55 else c.toNat - 48

/-- Value of an uppercase hexadecimal digit string (most significant first). -/
def hexVal (l : List Char) : Nat :=
  l.foldl (fun a c => a * 16 + hexCharVal c) 0

/-- The uppercase hexadecimal digit alphabet. -/
def hexChars : List Char :=
  ['0','1','2','3','4','5','6','7','8','9','A','B','C','D','E','F']

/-! ## Concrete documents and candidates used by the concrete theorems -/

/-- Document `<html><ul><!-- c --><li/><li/></ul></html>`; the target of the
round-trip counterexample is the first `li`, at position `[0, 1]`. -/
def docC1 : XNode :=
  .elem "html" [] [.elem "ul" [] [.comment "c", .elem "li" [] [], .elem "li" [] []]]

/-- The candidate `li:nth-child(2)` generated for the first `li` of `docC1`
(its lxml child index is 1 because the comment is counted). -/
def liNth2 : Knot :=
  { name := "li:nth-child(2)", penalty := 6, level := 0, desc := ⟨.byTag "li", some 2⟩ }

/-- Document whose root element is `<div id="a">` (a fragment root that is not
`html`). -/
def docC3 : XNode := .elem "div" [("id","a")] []

/-- Document `<html><div id="a"/></html>`. -/
def docC4 : XNode := .elem "html" [] [.elem "div" [("id","a")] []]

/-- The id candidate `#a`. -/
def kIdA : Knot := { name := "#a", penalty := 0, level := 0, desc := ⟨.byId "a", none⟩ }

/-- Element `<div id="a" class="x">`, which admits both an id and a class
candidate. -/
def nodeC2 : XNode := .elem "div" [("id","a"),("class","x")] []

/-- Document `<html><div id="a" class="x"/></html>`. -/
def docC2 : XNode := .elem "html" [] [nodeC2]

/-- The class candidate `.x` of `nodeC2`. -/
def kClsX : Knot := { name := ".x", penalty := 2, level := 0, desc := ⟨.byClass "x", none⟩ }

/-- Document with two spans: one under `div.b > div.m`, one under a bare
`div`. -/
def docC5 : XNode :=
  .elem "html" []
    [.elem "div" [("class","b")] [.elem "div" [("class","m")] [.elem "span" [] []]],
     .elem "div" [] [.elem "span" [] []]]

/-- The tag candidate `li`. -/
def kLi : Knot := { name := "li", penalty := 4, level := 0, desc := ⟨.byTag "li", none⟩ }

def kSpan : Knot := { name := "span", penalty := 4, level := 0, desc := ⟨.byTag "span", none⟩ }
def kM : Knot := { name := ".m", penalty := 2, level := 1, desc := ⟨.byClass "m", none⟩ }
def kB : Knot := { name := ".b", penalty := 2, level := 2, desc := ⟨.byClass "b", none⟩ }
def kHtml : Knot := { name := "html", penalty := 4, level := 3, desc := ⟨.byTag "html", none⟩ }

/-- A unique seed path for the target span of `docC5` (at position
`[0, 0, 0]`), rendering to `html > .b > .m > span`. -/
def pathC5 : Path := [kSpan, kM, kB, kHtml]

/-! # Theorems -/

/-! ## C1: round-trip uniqueness -/

/-- C1.  The claim states that for every node in the document the selector
returned by `finder` re-locates exactly that node.  The code violates it:
`index` counts comment siblings while the CSS engine counts element siblings
in `:nth-child`, so for the first `li` of `docC1` (position `[0, 1]`, behind a
comment) `finder` returns `li:nth-child(2)`, a selector whose query result is
the second `li` (position `[0, 2]`) and not the target. -/
theorem c1_roundtrip_code_bug :
    finder docC1 defaults [0, 1] = .ok "li:nth-child(2)"
    ∧ bottom_up_search docC1 defaults [0, 1] "all" =
        .ok (some [liNth2], ["li", "li:nth-child(2)"])
    ∧ cssQuery docC1 [liNth2] = [[0, 2]]
    ∧ [0, 2] ≠ ([0, 1] : Pos) :=
  ⟨rfl, rfl, rfl, by decide⟩

/-! ## C2: level construction in the exhaustive mode -/

/-- C2, counterexample.  The claim states that in the `all` search mode the
level contains every admissible candidate of every generator group unioned
together.  For `nodeC2` (`<div id="a" class="x">`) the class candidate `.x`
is admissible, yet the level built by the code in `all` mode is `[#a]` alone:
the first non-empty group wins even in `all` mode. -/
theorem c2_all_mode_counterexample :
    applyLimit "all" (baseLevel defaults nodeC2) (index docC2 [0]) = [kIdA]
    ∧ class_names defaults nodeC2 = [kClsX]
    ∧ kClsX ∉ [kIdA] :=
  ⟨rfl, rfl, by decide⟩

/-- C2, amended.  In `all` mode the level is the first non-empty generator
group in precedence order id, attributes, classes, tag — else the wildcard —
plus, when the node has a sibling position, a position-augmented duplicate of
every position-dispensable candidate of the level. -/
theorem c2_all_mode_level (cfg : Config) (node : XNode) (nth : Option Nat) :
    applyLimit "all" (baseLevel cfg node) nth = specLevelAll cfg node nth := by
  have hfm : ∀ l : List Knot, List.filterMap ((fun (x : Option Knot) => x) ∘ some) l = l := by
    intro l
    induction l with
    | nil => rfl
    | cons a t iht => simp [List.filterMap_cons, iht]
  have hb : baseLevel cfg node =
      firstNonEmpty [(id cfg node).toList, attr cfg node, class_names cfg node,
        (tag_name cfg node).toList] [any] := by
    cases hI : id cfg node <;> cases hA : attr cfg node <;>
      cases hC : class_names cfg node <;> cases hT : tag_name cfg node <;>
        simp [baseLevel, maybe, firstNonEmpty, hI, hA, hC, hT,
          List.filterMap_map, Function.comp, hfm]
  cases nth <;> simp [applyLimit, specLevelAll, hb]

/-! ## C3: the root shortcut -/

/-- C3, counterexample.  The claim states that for a target that is the
document root element, `finder` returns the literal tag name of that element with
no search performed.  For the fragment root `<div id="a">` (position `[]` of
`docC3`) the code runs the full search and returns `#a`, not `div`: the
shortcut tests the tag name `html`, not rootness. -/
theorem c3_root_shortcut_counterexample :
    tagAt docC3 [] = "div"
    ∧ finder docC3 defaults [] = .ok "#a"
    ∧ ("#a" : String) ≠ "div" :=
  ⟨rfl, rfl, by decide⟩

/-- C3, amended.  For every target node whose tag name is `html` — root or
not — `finder` returns the literal selector `html` immediately; the result
does not depend on the document or the configuration, so no search is
performed and no uniqueness query is issued. -/
theorem c3_html_shortcut (doc : XNode) (cfg : Config) (input : Pos)
    (h : tagAt doc input = "html") :
    finder doc cfg input = .ok "html" := by
  simp [finder, h]

/-- C3, witness for the amended theorem on a concrete document. -/
theorem c3_html_shortcut_witness :
    tagAt docC1 [] = "html" ∧ finder docC1 defaults [] = .ok "html" :=
  ⟨rfl, c3_html_shortcut docC1 defaults [] rfl⟩

/-! ## C7: the renderer -/

/-- Bridge between `getLast` and the `getLastD` form arising from the
rendering loop. -/
lemma getLast_cons_eq_getLastD :
    ∀ (rest : List Knot) (p0 : Knot) (h : p0 :: rest ≠ []),
      (p0 :: rest).getLast h = rest.getLastD p0 := by
  intro rest
  induction rest with
  | nil => intro p0 h; rfl
  | cons r rs ih =>
    intro p0 h
    rw [List.getLast_cons (by simp)]
    rw [ih r (by simp)]
    rw [List.getLastD_cons]

/-- Unrolling of the rendering loop at the far (root-ward) end: appending one
knot joins its name on the left of the text built so far. -/
lemma selGo_concat :
    ∀ (xs : List Knot) (q : String) (n k : Knot),
      selGo q n (xs ++ [k]) = joinStep (selGo q n xs) (xs.getLastD n) k := by
  intro xs
  induction xs with
  | nil => intro q n k; rfl
  | cons x xs ih =>
    intro q n k
    show selGo (joinStep q n x) x (xs ++ [k]) = _
    rw [ih]
    rw [List.getLastD_cons]
    rfl

/-- C7.  The renderer builds the selector text right-to-left: a single knot
renders to its name, and a path extended at the root-ward end by a knot `k`
renders to the name of `k` joined onto the previous text with the child combinator
exactly when the stored level of `k` is one greater than the level of the knot
that was previously outermost, and with the descendant combinator (a space)
otherwise. -/
theorem c7_selector_renderer :
    (∀ k : Knot, selector [k] = k.name)
    ∧ ∀ (p : Path) (k : Knot) (h : p ≠ []),
        selector (p ++ [k]) =
          k.name ++ (if (p.getLast h).level + 1 = k.level then " > " else " ")
            ++ selector p := by
  constructor
  · intro k; rfl
  · intro p k h
    match p, h with
    | p0 :: rest, h =>
      show selGo p0.name p0 (rest ++ [k]) = _
      rw [selGo_concat, getLast_cons_eq_getLastD rest p0 h]
      unfold joinStep
      by_cases hc : (rest.getLastD p0).level + 1 = k.level
      · rw [if_pos hc, if_pos]
        · rfl
        · simp only [beq_iff_eq]
          omega
      · rw [if_neg hc, if_neg]
        · rfl
        · simp only [beq_iff_eq]
          omega

/-- C7, witness: a two-knot path with adjacent levels renders with the child
combinator. -/
theorem c7_selector_renderer_witness :
    selector ([kSpan] ++ [kM]) = ".m" ++ " > " ++ "span" := by
  have h := c7_selector_renderer.2 [kSpan] kM (by simp)
  simpa using h

/-! ## C8: the uniqueness oracle contract -/

/-- C8.  The `unique` oracle raises exactly when the rendered selector
matches zero nodes, and otherwise returns true iff the selector matches
exactly one node. -/
theorem c8_unique_contract (doc : XNode) (path : Path) :
    ((∃ e, unique doc path = .error e) ↔ cssQuery doc path = [])
    ∧ (unique doc path = .ok true ↔ (cssQuery doc path).length = 1) := by
  by_cases h : (cssQuery doc path).length = 0
  · constructor
    · simp [unique, h, List.length_eq_zero.mp h]
    · simp [unique, h]
  · constructor
    · constructor
      · intro ⟨e, he⟩
        simp [unique, h] at he
      · intro hq
        simp [hq] at h
    · simp [unique, h]

/-- C8, witness: on `docC1` the positional `li` selector matches exactly one
node and `unique` confirms it. -/
theorem c8_unique_contract_witness :
    unique docC1 [liNth2] = .ok true :=
  (c8_unique_contract docC1 [liNth2]).2.mpr (by decide)

/-! ## C6: the combination enumerator and find_unique_path -/

/-- The accumulator of `combinations` is a prefix of every produced path. -/
lemma combinations_acc :
    ∀ (stack : List (List Knot)) (acc : Path),
      combinations stack acc = (combinations stack []).map (fun q => acc ++ q) := by
  intro stack
  induction stack with
  | nil => intro acc; simp [combinations]
  | cons lvl rest ih =>
    intro acc
    simp only [combinations]
    rw [List.map_flatMap]
    congr 1
    funext n
    rw [ih (acc ++ [n]), ih ([] ++ [n])]
    rw [List.map_map]
    congr 1
    funext q
    simp

/-- Membership in the enumeration: exactly the choices of one knot per level,
in level order. -/
lemma mem_combinations :
    ∀ (stack : List (List Knot)) (p : Path),
      p ∈ combinations stack [] ↔ List.Forall₂ (fun k lvl => k ∈ lvl) p stack := by
  intro stack
  induction stack with
  | nil =>
    intro p
    simp only [combinations, List.mem_singleton]
    constructor
    · rintro rfl; exact List.Forall₂.nil
    · intro h; cases h; rfl
  | cons lvl rest ih =>
    intro p
    constructor
    · intro hp
      simp only [combinations, List.mem_flatMap] at hp
      obtain ⟨n, hn, hpn⟩ := hp
      rw [combinations_acc] at hpn
      simp only [List.mem_map] at hpn
      obtain ⟨q, hq, rfl⟩ := hpn
      exact List.Forall₂.cons hn ((ih q).mp hq)
    · intro h
      cases h with
      | cons h1 h2 =>
        simp only [combinations, List.mem_flatMap]
        refine ⟨_, h1, ?_⟩
        rw [combinations_acc]
        simp only [List.mem_map]
        exact ⟨_, (ih _).mpr h2, rfl⟩

/-- Sorting by penalty preserves membership. -/
lemma mem_sort {l : List Path} {p : Path} : p ∈ sort l ↔ p ∈ l :=
  (List.perm_insertionSort _ l).mem_iff

/-- Sorting by penalty preserves length. -/
lemma length_sort (l : List Path) : (sort l).length = l.length :=
  (List.perm_insertionSort _ l).length_eq

/-- The sorted candidate list is pairwise ordered by total cost. -/
lemma pairwise_sort (l : List Path) :
    List.Pairwise (fun a b => penalty a ≤ penalty b) (sort l) := by
  haveI h1 : IsTotal Path (fun a b => penalty a ≤ penalty b) :=
    ⟨fun a b => Nat.le_total _ _⟩
  haveI h2 : IsTrans Path (fun a b => penalty a ≤ penalty b) :=
    ⟨fun a b c => Nat.le_trans⟩
  exact List.sorted_insertionSort _ l

/-- On a cost-sorted list, the returned path of the testing loop is a unique
member of minimal cost among the unique members. -/
lemma findCandidate_sorted (doc : XNode) :
    ∀ (l : List Path) (p : Path) (lg : List String),
      List.Pairwise (fun a b => penalty a ≤ penalty b) l →
      findCandidate doc l = .ok (some p, lg) →
      p ∈ l ∧ unique doc p = .ok true ∧
        ∀ q ∈ l, unique doc q = .ok true → penalty p ≤ penalty q := by
  intro l
  induction l with
  | nil => intro p lg _ h; simp [findCandidate] at h
  | cons a rest ih =>
    intro p lg hpw h
    cases hu : unique doc a with
    | error e =>
      simp only [findCandidate, hu] at h
      simp at h
    | ok b =>
      cases b with
      | true =>
        simp only [findCandidate, hu, Except.ok.injEq, Prod.mk.injEq] at h
        obtain ⟨hap, -⟩ := h
        obtain rfl : a = p := by injection hap
        refine ⟨List.mem_cons_self a rest, hu, ?_⟩
        intro q hq _
        rcases List.mem_cons.mp hq with rfl | hq2
        · exact Nat.le_refl _
        · exact (List.pairwise_cons.mp hpw).1 q hq2
      | false =>
        simp only [findCandidate, hu] at h
        cases hrec : findCandidate doc rest with
        | error e => rw [hrec] at h; simp at h
        | ok pr =>
          obtain ⟨r, lg2⟩ := pr
          rw [hrec] at h
          simp only [Except.ok.injEq, Prod.mk.injEq] at h
          obtain ⟨hr, -⟩ := h
          obtain ⟨hmem, hun, hmin⟩ :=
            ih p lg2 (List.pairwise_cons.mp hpw).2 (by rw [hrec, hr])
          refine ⟨List.mem_cons_of_mem a hmem, hun, ?_⟩
          intro q hq hqu
          rcases List.mem_cons.mp hq with rfl | hq2
          · rw [hu] at hqu
            cases hqu
          · exact hmin q hq2 hqu

/-- C6.  `find_unique_path` enumerates exactly the cartesian product of the
per-level candidate lists (one knot per level, in level order); when the
number of enumerated paths exceeds the threshold it returns no path and
issues no query; and any returned path is a unique member of the enumeration
of minimal total cost among the unique members. -/
theorem c6_find_unique_path (doc : XNode) (cfg : Config) (stack : List (List Knot)) :
    (∀ p : Path, p ∈ combinations stack [] ↔
        List.Forall₂ (fun k lvl => k ∈ lvl) p stack)
    ∧ ((combinations stack []).length > cfg.threshold →
        find_unique_path doc cfg stack = .ok (none, []))
    ∧ ∀ (p : Path) (lg : List String),
        find_unique_path doc cfg stack = .ok (some p, lg) →
          p ∈ combinations stack [] ∧ unique doc p = .ok true ∧
            ∀ q ∈ combinations stack [], unique doc q = .ok true →
              penalty p ≤ penalty q := by
  refine ⟨mem_combinations stack, ?_, ?_⟩
  · intro h
    unfold find_unique_path
    rw [if_pos]
    rw [length_sort]
    exact h
  · intro p lg h
    unfold find_unique_path at h
    by_cases hlen : (sort (combinations stack [])).length > cfg.threshold
    · rw [if_pos hlen] at h
      simp at h
    · rw [if_neg hlen] at h
      obtain ⟨hmem, hun, hmin⟩ :=
        findCandidate_sorted doc _ p lg (pairwise_sort _) h
      refine ⟨mem_sort.mp hmem, hun, ?_⟩
      intro q hq hqu
      exact hmin q (mem_sort.mpr hq) hqu

/-- C6, witness: on `docC4` with the stack of one level `[#a]`, the attempt
returns the path `[#a]`, which the theorem certifies as a unique member of
the enumeration. -/
theorem c6_find_unique_path_witness :
    find_unique_path docC4 defaults [[kIdA]] = .ok (some [kIdA], ["#a"])
    ∧ [kIdA] ∈ combinations [[kIdA]] []
    ∧ unique docC4 [kIdA] = .ok true := by
  have h := (c6_find_unique_path docC4 defaults [[kIdA]]).2.2 [kIdA] ["#a"] rfl
  exact ⟨rfl, h.1, h.2.1⟩

/-! ## C10: the index function counts comment siblings -/

/-- The search loop of `index` finds the input child at its position among
all children and reports the 1-based position. -/
lemma idxFind_spec :
    ∀ (cs : List XNode) (t i : Nat), i ≤ t → t - i < cs.length →
      idxFind cs t i = some (t + 1) := by
  intro cs
  induction cs with
  | nil => intro t i h1 h2; simp at h2
  | cons c rest ih =>
    intro t i h1 h2
    by_cases h : i = t
    · simp [idxFind, h]
    · have h1b : i + 1 ≤ t := by omega
      simp only [idxFind, if_neg h]
      exact ih t (i + 1) h1b (by simp at h2 ⊢; omega)

/-- C10.  For a node with a parent, `index` returns one plus the number of
its preceding siblings counted over all children of the parent — comment
nodes included — and the `:nth-child` qualifier generated from it embeds
exactly that ordinal in its rendered text.  Here the node is the child at
index `k` of its parent, so its preceding siblings are `cs.take k`. -/
theorem c10_index_counts_comments (doc : XNode) (ps : Pos) (k : Nat)
    (tag : String) (attrs : List (String × String)) (cs : List XNode)
    (hnode : getNodeAt doc ps = some (.elem tag attrs cs)) (hk : k < cs.length) :
    index doc (ps ++ [k]) = some ((cs.take k).length + 1)
    ∧ ∀ kn : Knot,
        (nth_child kn ((cs.take k).length + 1)).name =
          kn.name ++ ":nth-child(" ++ toString ((cs.take k).length + 1) ++ ")" := by
  have hlen : (cs.take k).length = k := by
    simp [List.length_take]
    omega
  constructor
  · rw [hlen]
    unfold index
    rw [if_neg (by simp)]
    rw [List.dropLast_concat, hnode, List.getLast?_concat]
    exact idxFind_spec cs k 0 (by omega) (by omega)
  · intro kn
    simp [nth_child]

/-- C10, witness: in `docC1` the first `li` (child index 1 of the `ul`, with
one preceding comment sibling) gets index 2, although it is the first element
child. -/
theorem c10_index_counts_comments_witness :
    index docC1 ([0] ++ [1]) = some 2
    ∧ (nth_child kLi 2).name = "li:nth-child(2)" := by
  have h := c10_index_counts_comments docC1 [0] 1 "ul" []
    [.comment "c", .elem "li" [] [], .elem "li" [] []] rfl (by decide)
  exact ⟨h.1, rfl⟩

/-! ## C9: the escaper -/

/-- Digit characters produced by the hexadecimal renderer are uppercase
hexadecimal digits carrying the intended value. -/
lemma hexDigitChar_spec : ∀ m, m < 16 →
    hexCharVal (hexDigitChar m) = m ∧ hexDigitChar m ∈ hexChars := by
  decide

/-- Reading the rendered digits back, starting from any accumulator. -/
lemma hexAux_foldl :
    ∀ (fuel n a : Nat), n ≤ fuel →
      (hexDigitsAux fuel n).foldl (fun x c => x * 16 + hexCharVal c) a =
        a * 16 ^ (hexDigitsAux fuel n).length + n := by
  intro fuel
  induction fuel with
  | zero =>
    intro n a h
    obtain rfl : n = 0 := by omega
    simp [hexDigitsAux]
  | succ f ih =>
    intro n a h
    by_cases h0 : n = 0
    · simp [hexDigitsAux, h0]
    · have h16 : (1 : Nat) < 16 := by norm_num
      have hlt := Nat.div_lt_self (Nat.pos_of_ne_zero h0) h16
      have hrec : n / 16 ≤ f := by omega
      simp only [hexDigitsAux, if_neg h0]
      rw [List.foldl_append]
      rw [ih (n / 16) a hrec]
      simp only [List.foldl]
      rw [(hexDigitChar_spec (n % 16) (Nat.mod_lt n (by norm_num))).1]
      rw [List.length_append, List.length_cons, List.length_nil]
      have hdm := Nat.div_add_mod n 16
      rw [Nat.pow_succ]
      have hring : (a * 16 ^ (hexDigitsAux f (n / 16)).length + n / 16) * 16 + n % 16 =
          a * (16 ^ (hexDigitsAux f (n / 16)).length * 16) + (16 * (n / 16) + n % 16) := by
        ring
      rw [hring, hdm]

/-- Digit-count bound for the rendered hexadecimal form. -/
lemma hexAux_len :
    ∀ (fuel n k : Nat), n ≤ fuel → n < 16 ^ k →
      (hexDigitsAux fuel n).length ≤ k := by
  intro fuel
  induction fuel with
  | zero => intro n k h1 h2; simp [hexDigitsAux]
  | succ f ih =>
    intro n k h1 h2
    by_cases h0 : n = 0
    · simp [hexDigitsAux, h0]
    · cases k with
      | zero => simp at h2; omega
      | succ k2 =>
        have h16 : (1 : Nat) < 16 := by norm_num
        have hrec : n / 16 ≤ f := by
          have := Nat.div_lt_self (Nat.pos_of_ne_zero h0) h16
          omega
        have hk2 : n / 16 < 16 ^ k2 := by
          rw [Nat.div_lt_iff_lt_mul (by omega)]
          calc n < 16 ^ (k2 + 1) := h2
            _ = 16 ^ k2 * 16 := by rw [Nat.pow_succ]
        simp only [hexDigitsAux, if_neg h0, List.length_append]
        have := ih (n / 16) k2 hrec hk2
        simp
        omega

/-- All digit characters of the rendered form belong to the uppercase
hexadecimal alphabet. -/
lemma hexAux_chars :
    ∀ (fuel n : Nat), ∀ d ∈ hexDigitsAux fuel n, d ∈ hexChars := by
  intro fuel
  induction fuel with
  | zero => intro n d hd; simp [hexDigitsAux] at hd
  | succ f ih =>
    intro n d hd
    by_cases h0 : n = 0
    · simp [hexDigitsAux, h0] at hd
    · simp only [hexDigitsAux, if_neg h0, List.mem_append, List.mem_singleton] at hd
      rcases hd with hd | rfl
      · exact ih (n / 16) d hd
      · exact (hexDigitChar_spec (n % 16) (Nat.mod_lt n (by omega))).2

/-- Printable characters pass through the escape loop unchanged. -/
lemma escList_printable :
    ∀ l : List Char, (∀ c ∈ l, 0x20 ≤ c.toNat ∧ c.toNat ≤ 0x7E) → escList l = l := by
  intro l
  induction l with
  | nil => intro _; rfl
  | cons c rest ih =>
    intro h
    have hc := h c (List.mem_cons_self c rest)
    simp only [escList, if_pos hc]
    rw [ih (fun d hd => h d (List.mem_cons_of_mem c hd))]
    rfl

/-- C9, amended.  `css_escape` is the identity on printable-ASCII strings;
every other character becomes a backslash, the code point rendered as at
least four uppercase hexadecimal digits — exactly four whenever the code
point fits in 16 bits — and a trailing space, and the digits read back to the
code point; code point 7 in particular becomes the literal `\0007 `. -/
theorem c9_css_escape :
    (∀ (s : String) (b : Bool),
        (∀ c ∈ s.data, 0x20 ≤ c.toNat ∧ c.toNat ≤ 0x7E) → css_escape s b = s)
    ∧ (∀ (c : Char) (b : Bool), ¬(0x20 ≤ c.toNat ∧ c.toNat ≤ 0x7E) →
        css_escape (String.mk [c]) b = "\\" ++ hexPad4 c.toNat ++ " "
        ∧ 4 ≤ (hexPad4 c.toNat).length
        ∧ (c.toNat ≤ 0xFFFF → (hexPad4 c.toNat).length = 4)
        ∧ (∀ d ∈ (hexPad4 c.toNat).data, d ∈ hexChars)
        ∧ hexVal (hexPad4 c.toNat).data = c.toNat)
    ∧ ∀ b : Bool, css_escape (String.mk [Char.ofNat 7]) b = "\\0007 " := by
  refine ⟨?_, ?_, fun b => rfl⟩
  · intro s b h
    show String.mk (escList s.data) = s
    rw [escList_printable s.data h]
  · intro c b hc
    refine ⟨?_, ?_, ?_, ?_, ?_⟩
    · show String.mk (escList [c]) = _
      simp only [escList, if_neg hc]
      show String.mk ('\\' :: (hexPad4 c.toNat).data ++ [' '] ++ []) = _
      apply congrArg String.mk
      simp [hexPad4, List.append_assoc]
    · show 4 ≤ (List.replicate _ '0' ++ _).length
      simp only [List.length_append, List.length_replicate]
      omega
    · intro hsmall
      show (List.replicate _ '0' ++ _).length = 4
      simp only [List.length_append, List.length_replicate]
      have hds : (if c.toNat = 0 then ['0']
          else hexDigitsAux c.toNat c.toNat).length ≤ 4 := by
        by_cases h0 : c.toNat = 0
        · simp [h0]
        · rw [if_neg h0]
          exact hexAux_len c.toNat c.toNat 4 (Nat.le_refl _) (by omega)
      omega
    · intro d hd
      simp only [hexPad4, List.mem_append, List.mem_replicate] at hd
      rcases hd with ⟨-, rfl⟩ | hd
      · decide
      · by_cases h0 : c.toNat = 0
        · rw [if_pos h0] at hd
          simp at hd
          rw [hd]
          decide
        · rw [if_neg h0] at hd
          exact hexAux_chars c.toNat c.toNat d hd
    · show hexVal (List.replicate _ '0' ++ _) = c.toNat
      unfold hexVal
      rw [List.foldl_append]
      have hzero : ∀ (k : Nat),
          (List.replicate k '0').foldl (fun a ch => a * 16 + hexCharVal ch) 0 = 0 := by
        intro k
        induction k with
        | zero => rfl
        | succ k2 ihk => simpa [List.replicate_succ, hexCharVal] using ihk
      rw [hzero]
      by_cases h0 : c.toNat = 0
      · simp [h0, hexCharVal]
      · rw [if_neg h0]
        rw [hexAux_foldl c.toNat c.toNat 0 (Nat.le_refl _)]
        simp

/-- C9, counterexample.  The claim as frozen says every non-printable
character is rendered with exactly four hexadecimal digits.  For the astral
code point 0x10000 the rendered escape is `\10000 ` — five digits, seven
characters in all, where the claimed form (backslash, four digits, space) has
six. -/
theorem c9_css_escape_counterexample :
    css_escape (String.mk [Char.ofNat 0x10000]) false = "\\10000 "
    ∧ (css_escape (String.mk [Char.ofNat 0x10000]) false).length = 7
    ∧ (7 : Nat) ≠ 6 :=
  ⟨rfl, rfl, by decide⟩

/-- C9, witness for the amended theorem. -/
theorem c9_css_escape_witness :
    css_escape "abc" true = "abc"
    ∧ css_escape (String.mk [Char.ofNat 7]) false = "\\0007 " :=
  ⟨c9_css_escape.1 "abc" true (by decide), c9_css_escape.2.2 false⟩

/-! ## C4: the computational budgets -/

/-- A successful `maybe` never yields an empty level. -/
lemma maybe_ne_nil {l : List (Option Knot)} {l2 : List Knot}
    (h : maybe l = some l2) : l2 ≠ [] := by
  unfold maybe at h
  by_cases he : (l.filterMap (fun x => x)).isEmpty
  · rw [if_pos he] at h
    cases h
  · rw [if_neg he] at h
    have heq : l.filterMap (fun x => x) = l2 := by injection h
    intro hnil
    apply he
    rw [heq, hnil]
    rfl

/-- The or-chain of the generators always yields a non-empty level (the
wildcard is the final fallback). -/
lemma baseLevel_ne_nil (cfg : Config) (node : XNode) : baseLevel cfg node ≠ [] := by
  unfold baseLevel
  cases h1 : maybe [id cfg node] with
  | some l => simpa using maybe_ne_nil h1
  | none =>
    cases h2 : maybe ((attr cfg node).map some) with
    | some l => simpa using maybe_ne_nil h2
    | none =>
      cases h3 : maybe ((class_names cfg node).map some) with
      | some l => simpa using maybe_ne_nil h3
      | none =>
        cases h4 : maybe [tag_name cfg node] with
        | some l => simpa using maybe_ne_nil h4
        | none => simp

/-- Every search-mode adjustment preserves non-emptiness of the level. -/
lemma applyLimit_ne_nil (limit : String) (level : List Knot) (nth : Option Nat)
    (h : level ≠ []) : applyLimit limit level nth ≠ [] := by
  obtain ⟨x, xs, rfl⟩ : ∃ x xs, level = x :: xs := by
    cases level with
    | nil => exact absurd rfl h
    | cons x xs => exact ⟨x, xs, rfl⟩
  unfold applyLimit
  by_cases h1 : (limit == "all") = true
  · rw [if_pos h1]
    cases nth <;> simp
  · rw [if_neg h1]
    by_cases h2 : (limit == "two") = true
    · rw [if_pos h2]
      cases nth <;> simp
    · rw [if_neg h2]
      by_cases h3 : (limit == "one") = true
      · rw [if_pos h3]
        cases nth <;> simp
        split <;> simp
      · rw [if_neg h3]
        by_cases h4 : (limit == "none") = true
        · rw [if_pos h4]
          cases nth <;> simp
        · rw [if_neg h4]
          simp

/-- The cartesian product of non-empty levels is non-empty. -/
lemma combinations_ne_nil :
    ∀ (stack : List (List Knot)) (acc : Path), (∀ l ∈ stack, l ≠ []) →
      combinations stack acc ≠ [] := by
  intro stack
  induction stack with
  | nil => intro acc _; simp [combinations]
  | cons lvl rest ih =>
    intro acc h
    have hlvl := h lvl (List.mem_cons_self _ _)
    obtain ⟨x, xs, rfl⟩ : ∃ x xs, lvl = x :: xs := by
      cases lvl with
      | nil => exact absurd rfl hlvl
      | cons x xs => exact ⟨x, xs, rfl⟩
    simp only [combinations, List.flatMap_cons]
    intro hemp
    rw [List.append_eq_nil] at hemp
    exact ih (acc ++ [x]) (fun l hl => h l (List.mem_cons_of_mem _ hl)) hemp.1

/-- With a zero threshold, every attempt gives up before querying: the
enumeration always holds at least one path. -/
lemma find_unique_path_thr0 (doc : XNode) (cfg : Config) (hthr : cfg.threshold = 0)
    (stack : List (List Knot)) (h : ∀ l ∈ stack, l ≠ []) :
    find_unique_path doc cfg stack = .ok (none, []) := by
  have hpos : (sort (combinations stack [])).length > cfg.threshold := by
    rw [length_sort, hthr]
    exact Nat.pos_of_ne_zero
      (fun hz => combinations_ne_nil stack [] h (List.length_eq_zero.mp hz))
  unfold find_unique_path
  rw [if_pos hpos]

/-- With a zero threshold, one loop iteration of the search yields nothing
whenever its continuation yields nothing. -/
lemma busStep_thr0 (doc : XNode) (cfg : Config) (limit : String) (pos : Pos)
    (i : Nat) (stack : List (List Knot))
    (cont : Nat → List (List Knot) → Except String (Option Path × List String))
    (hthr : cfg.threshold = 0)
    (hstack : ∀ l ∈ stack, l ≠ [])
    (hcont : ∀ i2 stack2, (∀ l ∈ stack2, l ≠ []) → cont i2 stack2 = .ok (none, [])) :
    busStep doc cfg limit pos i stack cont = .ok (none, []) := by
  cases hg : getNodeAt doc pos with
  | none =>
    simp only [busStep, hg]
    exact find_unique_path_thr0 doc cfg hthr stack hstack
  | some node =>
    simp only [busStep, hg]
    by_cases hcm : isComment node = true
    · rw [if_pos hcm]
      exact hcont _ _ hstack
    · rw [if_neg hcm]
      have hstack2 : ∀ l ∈ stack ++
          [(applyLimit limit (baseLevel cfg node) (index doc pos)).map
            (fun k => { k with level := i })], l ≠ [] := by
        intro l hl
        rcases List.mem_append.mp hl with hl | hl
        · exact hstack l hl
        · rw [List.mem_singleton] at hl
          subst hl
          simp only [ne_eq, List.map_eq_nil_iff]
          exact applyLimit_ne_nil limit _ _ (baseLevel_ne_nil cfg node)
      by_cases hseed : cfg.seed_min_length ≤ (stack ++
          [(applyLimit limit (baseLevel cfg node) (index doc pos)).map
            (fun k : Knot => { k with level := i })]).length
      · rw [if_pos hseed]
        rw [find_unique_path_thr0 doc cfg hthr _ hstack2]
        rw [hcont _ _ hstack2]
        rfl
      · rw [if_neg hseed]
        exact hcont _ _ hstack2

/-- With a zero threshold, the whole bottom-up walk yields nothing and issues
no query. -/
lemma busGo_thr0 (doc : XNode) (cfg : Config) (limit : String)
    (hthr : cfg.threshold = 0) :
    ∀ (rpos : Pos) (i : Nat) (stack : List (List Knot)),
      (∀ l ∈ stack, l ≠ []) → busGo doc cfg limit rpos i stack = .ok (none, []) := by
  intro rpos
  induction rpos with
  | nil =>
    intro i stack h
    exact busStep_thr0 doc cfg limit _ i stack _ hthr h
      (fun i2 s2 h2 => find_unique_path_thr0 doc cfg hthr s2 h2)
  | cons r rt ih =>
    intro i stack h
    exact busStep_thr0 doc cfg limit _ i stack _ hthr h
      (fun i2 s2 h2 => ih i2 s2 h2)

/-- When the try counter has exceeded the budget, the optimizer loop stops
with what it has, performing no further work. -/
lemma optLoopAux_stop (doc : XNode) (cfg : Config) (input : Pos)
    (recurse : Path → Scope → Except String (List Path × Scope × List String))
    (path : Path) (is : List Nat) (scope : Scope)
    (h : scope.counter > cfg.max_number_of_tries) :
    optLoopAux doc cfg input recurse path is scope = .ok ([], scope, []) := by
  cases is with
  | nil => rfl
  | cons i is2 => simp only [optLoopAux, if_pos h]

/-- When the try counter has exceeded the budget, a recursive optimization
pass returns nothing. -/
lemma optAux_stop (doc : XNode) (cfg : Config) (input : Pos) (fuel : Nat)
    (path : Path) (scope : Scope)
    (h : scope.counter > cfg.max_number_of_tries) :
    optAux doc cfg input fuel path scope = .ok ([], scope, []) := by
  cases fuel with
  | zero => rfl
  | succ f =>
    simp only [optAux]
    by_cases hg : path.length > 2 ∧ path.length > cfg.optimized_min_length
    · rw [if_pos hg]
      exact optLoopAux_stop doc cfg input _ path _ scope h
    · rw [if_neg hg]

/-- With a zero try budget, one loop iteration at most accepts its own
removal candidate and everything after it is cut off by the counter. -/
lemma optLoopAux_max0 (doc : XNode) (cfg : Config) (input : Pos)
    (recurse : Path → Scope → Except String (List Path × Scope × List String))
    (path : Path) (i : Nat) (is : List Nat) (vis : List String)
    (hmax : cfg.max_number_of_tries = 0)
    (hrec : ∀ p s, s.counter > cfg.max_number_of_tries → recurse p s = .ok ([], s, [])) :
    ∀ res sc lg,
      optLoopAux doc cfg input recurse path (i :: is) ⟨0, vis⟩ = .ok (res, sc, lg) →
      res.length ≤ 1 ∧ ∀ q ∈ res, q = path.take i ++ path.drop (i + 1) := by
  intro res sc lg hopt
  have hz : ¬ (Scope.mk 0 vis).counter > cfg.max_number_of_tries := by
    show ¬ (0 : Nat) > cfg.max_number_of_tries
    omega
  have hone : (Scope.mk 1 vis).counter > cfg.max_number_of_tries := by
    show (1 : Nat) > cfg.max_number_of_tries
    omega
  simp only [optLoopAux, if_neg hz] at hopt
  by_cases hv : selector (path.take i ++ path.drop (i + 1)) ∈ vis
  · rw [if_pos hv] at hopt
    rw [optLoopAux_stop doc cfg input recurse path is _ hone] at hopt
    simp only [Except.ok.injEq, Prod.mk.injEq] at hopt
    obtain ⟨rfl, -⟩ := hopt
    simp
  · rw [if_neg hv] at hopt
    cases hu : unique doc (path.take i ++ path.drop (i + 1)) with
    | error e =>
      simp only [hu] at hopt
      exact absurd hopt (by simp)
    | ok u =>
      simp only [hu] at hopt
      by_cases hs : (u && same doc (path.take i ++ path.drop (i + 1)) input) = true
      · rw [if_pos hs] at hopt
        have hone2 : (Scope.mk (0 + 1)
            (selector (path.take i ++ path.drop (i + 1)) :: vis)).counter >
              cfg.max_number_of_tries := by
          show (0 + 1 : Nat) > cfg.max_number_of_tries
          omega
        rw [hrec _ _ hone2] at hopt
        dsimp only at hopt
        rw [optLoopAux_stop doc cfg input recurse path is _ hone2] at hopt
        dsimp only at hopt
        simp only [Except.ok.injEq, Prod.mk.injEq, List.append_nil,
          List.nil_append] at hopt
        obtain ⟨rfl, -⟩ := hopt
        constructor
        · simp
        · intro q hq
          rw [List.mem_singleton] at hq
          exact hq
      · rw [if_neg hs] at hopt
        rw [optLoopAux_stop doc cfg input recurse path is _ hone] at hopt
        simp only [Except.ok.injEq, Prod.mk.injEq] at hopt
        obtain ⟨rfl, -⟩ := hopt
        simp

/-- C4, amended.  With a zero threshold the `all` search mode never produces
a result and issues no query, so the search falls through to the `two` mode;
with a zero try budget the optimizer performs at most one removal attempt, so
it returns at most one shortened path, exactly one element shorter than the
seed (rather than performing no shortening at all). -/
theorem c4_budget (doc : XNode) (cfg : Config) (input : Pos) (path : Path)
    (vis : List String) :
    (cfg.threshold = 0 → bottom_up_search doc cfg input "all" = .ok (none, []))
    ∧ (cfg.max_number_of_tries = 0 →
        ∀ res sc lg, optimize doc cfg path input ⟨0, vis⟩ = .ok (res, sc, lg) →
          res.length ≤ 1 ∧ ∀ q ∈ res, q.length + 1 = path.length) := by
  constructor
  · intro hthr
    exact busGo_thr0 doc cfg "all" hthr input.reverse 0 [] (by simp)
  · intro hmax res sc lg hopt
    unfold optimize at hopt
    cases hlen : path.length with
    | zero =>
      rw [hlen] at hopt
      simp only [optAux, Except.ok.injEq, Prod.mk.injEq] at hopt
      obtain ⟨rfl, -⟩ := hopt
      simp
    | succ f =>
      rw [hlen] at hopt
      simp only [optAux] at hopt
      by_cases hg : path.length > 2 ∧ path.length > cfg.optimized_min_length
      · rw [if_pos hg] at hopt
        have hrange : List.range' 1 (path.length - 2) =
            1 :: List.range' 2 (path.length - 3) := by
          obtain ⟨m, hm⟩ : ∃ m, path.length - 2 = m + 1 ∧ m = path.length - 3 :=
            ⟨path.length - 3, by omega, rfl⟩
          rw [hm.1, hm.2]
          rfl
        rw [hrange] at hopt
        have hrec : ∀ p s, s.counter > cfg.max_number_of_tries →
            optAux doc cfg input f p s = .ok ([], s, []) :=
          fun p s hs => optAux_stop doc cfg input f p s hs
        obtain ⟨hlen1, hform⟩ :=
          optLoopAux_max0 doc cfg input (optAux doc cfg input f) path 1
            (List.range' 2 (path.length - 3)) vis hmax hrec res sc lg hopt
        refine ⟨hlen1, ?_⟩
        intro q hq
        rw [hform q hq]
        simp only [List.length_append, List.length_take, List.length_drop]
        omega
      · rw [if_neg hg] at hopt
        simp only [Except.ok.injEq, Prod.mk.injEq] at hopt
        obtain ⟨rfl, -⟩ := hopt
        simp

/-- C4, counterexample.  The claim as frozen says the `all` mode never
produces a result with threshold 1, and that a zero try budget means no
shortening.  Both parts fail: on `docC4` with threshold 1 the `all` mode
returns the path `[#a]` (the enumeration holds exactly one path), and on
`docC5` the optimizer with a zero try budget still performs its first removal
attempt and returns a shortened path. -/
theorem c4_budget_counterexample :
    bottom_up_search docC4 { defaults with threshold := 1 } [0] "all" =
      .ok (some [kIdA], ["#a"])
    ∧ optimize docC5 { defaults with max_number_of_tries := 0 } pathC5 [0, 0, 0]
        ⟨0, []⟩ =
      .ok ([[kSpan, kB, kHtml]], ⟨1, ["html > .b span"]⟩, ["html > .b span"])
    ∧ ([[kSpan, kB, kHtml]] : List Path) ≠ [] :=
  ⟨rfl, rfl, by decide⟩

/-- C4, witness for the amended theorem. -/
theorem c4_budget_witness :
    bottom_up_search docC4 { defaults with threshold := 0 } [0] "all" = .ok (none, [])
    ∧ ([[kSpan, kB, kHtml]] : List Path).length ≤ 1 := by
  constructor
  · exact (c4_budget docC4 { defaults with threshold := 0 } [0] [] []).1 rfl
  · exact ((c4_budget docC5 { defaults with max_number_of_tries := 0 } [0, 0, 0]
      pathC5 []).2 rfl [[kSpan, kB, kHtml]] ⟨1, ["html > .b span"]⟩
      ["html > .b span"] rfl).1

/-! ## C5: memoization of tried selector texts -/

/-- C5, counterexample.  The claim says a candidate whose rendered text was
already tried earlier in the run is skipped without querying again.  In this
run the selector `html span` is tried (and fails) inside the recursion under
the first accepted shortening, and tried again — a second oracle query —
inside the recursion under the second accepted shortening, because the code
memoizes only successful tries. -/
theorem c5_memoization_counterexample :
    optimize docC5 defaults pathC5 [0, 0, 0] ⟨0, []⟩ =
      .ok ([[kSpan, kB, kHtml], [kSpan, kM, kHtml]],
        ⟨4, ["html .m > span", "html > .b span"]⟩,
        ["html > .b span", "html span", "html .m > span", "html span"])
    ∧ (["html > .b span", "html span", "html .m > span",
        "html span"].count "html span") = 2 :=
  ⟨rfl, by decide⟩

/-- C5, amended.  A removal candidate whose rendered selector text is in the
visited set — which records the previously accepted tries of the run — is
skipped without querying the oracle: the loop merely charges the try counter
and moves on, leaving results, the visited set and the query log unchanged.
Failed tries are not recorded, so only previously accepted texts are
skipped. -/
theorem c5_visited_skip (doc : XNode) (cfg : Config) (input : Pos)
    (recurse : Path → Scope → Except String (List Path × Scope × List String))
    (path : Path) (i : Nat) (is : List Nat) (scope : Scope)
    (hc : ¬ scope.counter > cfg.max_number_of_tries)
    (hv : selector (path.take i ++ path.drop (i + 1)) ∈ scope.visited) :
    optLoopAux doc cfg input recurse path (i :: is) scope =
      optLoopAux doc cfg input recurse path is ⟨scope.counter + 1, scope.visited⟩ := by
  simp only [optLoopAux, if_neg hc, if_pos hv]

/-- C5, witness for the amended theorem on a concrete skip. -/
theorem c5_visited_skip_witness :
    ¬ (0 : Nat) > defaults.max_number_of_tries
    ∧ selector (pathC5.take 1 ++ pathC5.drop 2) ∈ ["html > .b span"]
    ∧ optLoopAux docC5 defaults [0, 0, 0] (fun _ s => .ok ([], s, [])) pathC5
        [1] ⟨0, ["html > .b span"]⟩ =
      optLoopAux docC5 defaults [0, 0, 0] (fun _ s => .ok ([], s, [])) pathC5
        [] ⟨1, ["html > .b span"]⟩ :=
  ⟨by decide, by decide,
    c5_visited_skip docC5 defaults [0, 0, 0] (fun _ s => .ok ([], s, [])) pathC5
      1 [] ⟨0, ["html > .b span"]⟩ (by decide) (by decide)⟩

end Finder
